import Mathlib

/-!
Verification of the panorama-stitching core (cylindrical projection, robust
translation estimation, sequence accumulation, drift correction, compositing
and cropping) against its natural-language specification.

The Python source is embedded shallowly:

* images are height/width pairs together with a total pixel function
  (one colour plane for the warper, three channels for the compositor);
* `float` values are modelled as `ℚ`; `np.pi`, `np.cos` and `np.tan` are
  abstract parameters (`piQ`, `cosQ`, `tanQ`) since the statements under
  scrutiny never depend on their concrete values;
* the process-wide random source used by `np.random.randint` is made
  explicit as the list of sampled indices (`idxs`), matching the spec's
  requirement of a seedable generator;
* Python dictionaries with fixed keys become structures with named fields;
* functions that `raise` are embedded in `Except String`.
-/

/-- Computable floor of a rational, mirroring how the source's `int`/`floor`
arithmetic is evaluated; it agrees with `Int.floor`. -/
def ratFloor (q : ℚ) : ℤ := q.num / q.den

theorem ratFloor_eq (q : ℚ) : ratFloor q = ⌊q⌋ := Rat.floor_def.symm

/-- Computable ceiling of a rational (used for `np.ceil`). -/
def ratCeil (q : ℚ) : ℤ := -ratFloor (-q)

theorem ratCeil_eq (q : ℚ) : ratCeil q = ⌈q⌉ := by
  rw [ratCeil, ratFloor_eq, Int.floor_neg, neg_neg]

/-! ### Data model (spec §3, embedded from the Python dictionaries) -/

/-- Result dictionary of `estimate_pure_translation_ransac`
(src/alignment/ransac.py): keys `translation`, `inliers`, `num_inliers`,
`inlier_ratio`. -/
structure RansacResult where
  translation : ℚ × ℚ
  inliers : List Bool
  num_inliers : ℕ
  inlier_ratio : ℚ
deriving DecidableEq

/-- Per-pair translation record built in `PanoramaStitcher._match_and_align`
(src/pipeline.py): keys `pair`, `translation`, `num_matches`, `num_inliers`,
`inlier_ratio`. -/
structure TransRecord where
  pair : ℕ × ℕ
  translation : ℚ × ℚ
  num_matches : ℕ
  num_inliers : ℕ
  inlier_ratio : ℚ
deriving DecidableEq

/-- Result dictionary of `correct_drift` (src/stitching/drift.py). -/
structure DriftResult where
  corrected_focal_length : ℚ
  original_focal_length : ℚ
  gap_angle : ℚ
  gap_angle_degrees : ℚ
  correction_per_pair : ℚ
  num_images : ℕ
  correction_applied : Bool
deriving DecidableEq

/-! ### Sequence accumulator (src/stitching/blending.py, claim C2) -/

/-- Loop body of `compute_cumulative_translations`: the running position is
`(current_x, current_y)`; only `current_y -= dy` is executed (the
`current_x -= dx` line is commented out in the source), and the updated
position is appended after each pairwise translation. -/
def cumGo (cx cy : ℚ) : List (ℚ × ℚ) → List (ℚ × ℚ)
  | [] => []
  | (_dx, dy) :: rest => (cx, cy - dy) :: cumGo cx (cy - dy) rest

/-- `compute_cumulative_translations` from src/stitching/blending.py:
cumulative placement offsets, starting from `(0, 0)`. -/
def compute_cumulative_translations (ps : List (ℚ × ℚ)) : List (ℚ × ℚ) :=
  (0, 0) :: cumGo 0 0 ps

theorem cumGo_length (cx cy : ℚ) (ps : List (ℚ × ℚ)) :
    (cumGo cx cy ps).length = ps.length := by
  induction ps generalizing cy with
  | nil => rfl
  | cons p rest ih => obtain ⟨dx, dy⟩ := p; simp [cumGo, ih]

theorem cumGo_getD (ps : List (ℚ × ℚ)) (cx cy : ℚ) (i : ℕ) (h : i < ps.length) :
    (cumGo cx cy ps).getD i (0, 0) =
      (cx, cy - (((ps.take (i + 1)).map Prod.snd).sum)) := by
  induction ps generalizing cy i with
  | nil => simp at h
  | cons p rest ih =>
    obtain ⟨dx, dy⟩ := p
    cases i with
    | zero => simp [cumGo]
    | succ i =>
      have hi : i < rest.length := by simpa using h
      simp only [cumGo, List.getD_cons_succ, ih (cy - dy) i hi, List.take_succ_cons,
        List.map_cons, List.sum_cons]
      ring_nf

theorem cum_getD (ps : List (ℚ × ℚ)) (i : ℕ) (h : i ≤ ps.length) :
    (compute_cumulative_translations ps).getD i (0, 0) =
      (0, -(((ps.take i).map Prod.snd).sum)) := by
  cases i with
  | zero => simp [compute_cumulative_translations]
  | succ i =>
    have hi : i < ps.length := by omega
    simp only [compute_cumulative_translations, List.getD_cons_succ]
    rw [cumGo_getD ps 0 0 i hi]
    ring_nf

/-- C2: the sequence accumulator returns `n + 1` placement offsets, the first
is `(0,0)`, each step subtracts the pairwise vertical component
(`offset[i+1].y = offset[i].y - pairwise[i].dy`), every horizontal component
is `0`, and the pairwise list `[(0,-10),(0,-10),(0,-10)]` yields exactly
`[(0,0),(0,10),(0,20),(0,30)]`. -/
theorem C2_sequence_accumulator (ps : List (ℚ × ℚ)) :
    (compute_cumulative_translations ps).length = ps.length + 1 ∧
    (compute_cumulative_translations ps).getD 0 (0, 0) = (0, 0) ∧
    (∀ i, i < ps.length →
      ((compute_cumulative_translations ps).getD (i + 1) (0, 0)).2 =
        ((compute_cumulative_translations ps).getD i (0, 0)).2 -
          (ps.getD i (0, 0)).2) ∧
    (∀ i, ((compute_cumulative_translations ps).getD i (0, 0)).1 = 0) ∧
    compute_cumulative_translations [(0, -10), (0, -10), (0, -10)] =
      [(0, 0), (0, 10), (0, 20), (0, 30)] := by
  refine ⟨?_, ?_, ?_, ?_, ?_⟩
  · simp [compute_cumulative_translations, cumGo_length]
  · rfl
  · intro i hi
    rw [cum_getD ps i (le_of_lt hi), cum_getD ps (i + 1) hi]
    rw [List.take_succ, List.map_append, List.sum_append]
    have hget : ps[i]? = some (ps.getD i (0, 0)) := by
      rw [List.getD_eq_getElem ps (0, 0) hi]
      exact List.getElem?_eq_getElem hi
    rw [hget]
    simp
    ring
  · intro i
    rcases le_or_lt i ps.length with h | h
    · rw [cum_getD ps i h]
    · rw [List.getD_eq_default]
      have := cumGo_length (0 : ℚ) (0 : ℚ) ps
      simp [compute_cumulative_translations, cumGo_length]
      omega
  · simp only [compute_cumulative_translations, cumGo]
    norm_num

/-- Witness for C2 evaluated on the spec's concrete chain. -/
theorem C2_sequence_accumulator_witness :
    ((compute_cumulative_translations [(0, -10), (0, -10), (0, -10)]).getD 1
        (0, 0)).2 =
      ((compute_cumulative_translations [(0, -10), (0, -10), (0, -10)]).getD 0
          (0, 0)).2 -
        (([((0 : ℚ), (-10 : ℚ)), (0, -10), (0, -10)].getD 0 (0, 0)).2) :=
  (C2_sequence_accumulator [(0, -10), (0, -10), (0, -10)]).2.2.1 0 (by norm_num)

/-! ### Drift corrector (src/stitching/drift.py, claims C3 and C4) -/

/-- `correct_drift` from src/stitching/drift.py.  `piQ` stands for `np.pi`.
The source also computes `total_dy` and `theta_accumulated`, both dead
locals that flow into no output field, so they are omitted here.
`correction_applied` is unconditionally `True` in the source. -/
def correct_drift (piQ : ℚ) (translations : List TransRecord)
    (first_last : RansacResult) (focal_length : ℚ) (_image_width : ℕ) :
    DriftResult :=
  let n_images := translations.length + 1
  let dy_gap := first_last.translation.2
  let theta_gap := dy_gap / focal_length
  let correction_per_pair := theta_gap / (n_images : ℚ)
  let corrected_focal_length := focal_length * (1 - theta_gap / (2 * piQ))
  { corrected_focal_length := corrected_focal_length
    original_focal_length := focal_length
    gap_angle := theta_gap
    gap_angle_degrees := theta_gap * (180 / piQ)
    correction_per_pair := correction_per_pair
    num_images := n_images
    correction_applied := true }

/-- C3: the drift corrector computes `θg = first_last.dy / f` and
`f' = f · (1 − θg / 2π)`; with `f = 500` and `first_last.dy = 500·(π/6)`
the corrected focal length is exactly `500 · (11/12)`. -/
theorem C3_drift_correction_formula (piQ : ℚ) (ts : List TransRecord)
    (fl : RansacResult) (f : ℚ) (w : ℕ) :
    (correct_drift piQ ts fl f w).gap_angle = fl.translation.2 / f ∧
    (correct_drift piQ ts fl f w).corrected_focal_length =
      f * (1 - fl.translation.2 / f / (2 * piQ)) ∧
    (piQ ≠ 0 → f = 500 → fl.translation.2 = 500 * (piQ / 6) →
      (correct_drift piQ ts fl f w).corrected_focal_length = 500 * (11 / 12)) := by
  refine ⟨rfl, rfl, ?_⟩
  intro hpi hf hdy
  show f * (1 - fl.translation.2 / f / (2 * piQ)) = 500 * (11 / 12)
  rw [hf, hdy]
  field_simp
  ring

/-- Witness for C3 at `π := 3`, `f = 500`, `dy = 500·(3/6) = 250`. -/
theorem C3_drift_correction_formula_witness :
    (correct_drift 3 [] ⟨(0, 250), [], 0, 0⟩ 500 0).corrected_focal_length =
      500 * (11 / 12) :=
  (C3_drift_correction_formula 3 [] ⟨(0, 250), [], 0, 0⟩ 500 0).2.2
    (by norm_num) rfl (by norm_num)

/-- `should_apply_drift_correction` from src/stitching/drift.py: gate on the
first/last match quality (default `min_inlier_ratio = 0.3`). -/
def should_apply_drift_correction (first_last_match_quality : RansacResult)
    (min_inlier_ratio : ℚ) : Bool :=
  if first_last_match_quality.num_inliers < 10 then false
  else if first_last_match_quality.inlier_ratio < min_inlier_ratio then false
  else true

/-- C4: the gate passes iff `inlier_count ≥ 10` and `inlier_ratio ≥ 0.3`
(the default threshold); with `inlier_count = 5` it returns `false` for every
ratio threshold and every ratio.  The gate is a total `Bool`-valued function,
so a failed gate is a skip, never an error. -/
theorem C4_drift_correction_gate (q : RansacResult) (r : ℚ) :
    (should_apply_drift_correction q (3 / 10) = true ↔
      10 ≤ q.num_inliers ∧ 3 / 10 ≤ q.inlier_ratio) ∧
    (q.num_inliers = 5 → should_apply_drift_correction q r = false) := by
  constructor
  · unfold should_apply_drift_correction
    split_ifs with h1 h2
    · simp; intro h; omega
    · simp; intro h; linarith
    · simp; constructor
      · omega
      · linarith
  · intro h5
    unfold should_apply_drift_correction
    rw [h5]
    simp

/-- Witness for C4: with five inliers the gate rejects even a perfect ratio. -/
theorem C4_drift_correction_gate_witness :
    should_apply_drift_correction ⟨(0, 0), [], 5, 1⟩ 0 = false :=
  (C4_drift_correction_gate ⟨(0, 0), [], 5, 1⟩ 0).2 rfl

/-! ### Robust translation estimator (src/alignment/ransac.py,
claims C6, C7, C10) -/

/-- Hypothesis translation sampled from pair `idx`:
`(dx, dy) = pts2[idx] - pts1[idx]`. -/
def hypTrans (pts1 pts2 : List (ℚ × ℚ)) (idx : ℕ) : ℚ × ℚ :=
  ((pts2.getD idx (0, 0)).1 - (pts1.getD idx (0, 0)).1,
   (pts2.getD idx (0, 0)).2 - (pts1.getD idx (0, 0)).2)

/-- Inlier test for one correspondence under translation `d`:
`np.linalg.norm(p + d - q) < threshold`, stated on squares so it stays in
`ℚ` (for a real threshold `t`, `‖v‖ < t ↔ 0 ≤ t ∧ ‖v‖² < t²`). -/
def isInlier (t : ℚ) (d : ℚ × ℚ) (p q : ℚ × ℚ) : Bool :=
  decide (0 ≤ t ∧
    (p.1 + d.1 - q.1) ^ 2 + (p.2 + d.2 - q.2) ^ 2 < t ^ 2)

/-- Boolean inlier mask `distances < threshold` for the hypothesis `d`. -/
def inlierMask (pts1 pts2 : List (ℚ × ℚ)) (t : ℚ) (d : ℚ × ℚ) : List Bool :=
  List.zipWith (fun p q => isInlier t d p q) pts1 pts2

/-- Inlier count of the hypothesis sampled from pair `idx`. -/
def scoreHyp (pts1 pts2 : List (ℚ × ℚ)) (t : ℚ) (idx : ℕ) : ℕ :=
  (inlierMask pts1 pts2 t (hypTrans pts1 pts2 idx)).count true

/-- Loop state of the RANSAC iteration: `best_inliers`, `best_translation`,
`best_mask`. -/
structure BState where
  best_inliers : ℕ
  best_translation : ℚ × ℚ
  best_mask : List Bool
deriving DecidableEq

/-- State reached right after accepting the hypothesis of pair `idx`. -/
def hypState (pts1 pts2 : List (ℚ × ℚ)) (t : ℚ) (idx : ℕ) : BState :=
  ⟨scoreHyp pts1 pts2 t idx, hypTrans pts1 pts2 idx,
   inlierMask pts1 pts2 t (hypTrans pts1 pts2 idx)⟩

/-- One RANSAC iteration: keep the new hypothesis only when its inlier count
is strictly larger (`num_inliers > best_inliers`), so ties keep the
first-seen hypothesis. -/
def ransacStep (pts1 pts2 : List (ℚ × ℚ)) (t : ℚ) (s : BState) (idx : ℕ) :
    BState :=
  if s.best_inliers < scoreHyp pts1 pts2 t idx then hypState pts1 pts2 t idx
  else s

/-- The RANSAC sampling loop over the explicit list of sampled indices. -/
def ransacLoop (pts1 pts2 : List (ℚ × ℚ)) (t : ℚ) (s : BState)
    (idxs : List ℕ) : BState :=
  idxs.foldl (ransacStep pts1 pts2 t) s

/-- Insertion of an element into a sorted list (helper for the median). -/
def insSorted (x : ℚ) : List ℚ → List ℚ
  | [] => [x]
  | y :: ys => if x ≤ y then x :: y :: ys else y :: insSorted x ys

/-- Insertion sort on rationals (helper for the median). -/
def sortQ : List ℚ → List ℚ
  | [] => []
  | x :: xs => insSorted x (sortQ xs)

/-- `np.median`: middle element of the sorted list, or the mean of the two
middle elements for even length. -/
def medianQ (l : List ℚ) : ℚ :=
  let s := sortQ l
  let n := s.length
  if n = 0 then 0
  else if n % 2 = 1 then s.getD (n / 2) 0
  else (s.getD (n / 2 - 1) 0 + s.getD (n / 2) 0) / 2

/-- Boolean-mask selection `xs[mask]` (numpy fancy indexing). -/
def maskedSelect (mask : List Bool) (xs : List ℚ) : List ℚ :=
  (List.zip mask xs).filterMap fun bx => if bx.1 then some bx.2 else none

/-- Componentwise differences `pts2[:,0] - pts1[:,0]`. -/
def diffsX (pts1 pts2 : List (ℚ × ℚ)) : List ℚ :=
  List.zipWith (fun p q => q.1 - p.1) pts1 pts2

/-- Componentwise differences `pts2[:,1] - pts1[:,1]`. -/
def diffsY (pts1 pts2 : List (ℚ × ℚ)) : List ℚ :=
  List.zipWith (fun p q => q.2 - p.2) pts1 pts2

/-- `estimate_pure_translation_ransac` from src/alignment/ransac.py.  The
`max_iters` random draws of `np.random.randint(0, n_points)` are passed in
explicitly as `idxs`.  Fewer than one point pair returns the zero estimate
with an empty mask; after the loop the translation is refined to the
coordinate-wise median over the best inlier set whenever `best_inliers > 0`. -/
def estimate_pure_translation_ransac (pts1 pts2 : List (ℚ × ℚ)) (t : ℚ)
    (idxs : List ℕ) : RansacResult :=
  if pts1.length < 1 then
    { translation := (0, 0), inliers := [], num_inliers := 0, inlier_ratio := 0 }
  else
    let fin := ransacLoop pts1 pts2 t
      ⟨0, (0, 0), List.replicate pts1.length false⟩ idxs
    let best_translation :=
      if 0 < fin.best_inliers then
        (medianQ (maskedSelect fin.best_mask (diffsX pts1 pts2)),
         medianQ (maskedSelect fin.best_mask (diffsY pts1 pts2)))
      else fin.best_translation
    let ratio :=
      if 0 < pts1.length then (fin.best_inliers : ℚ) / (pts1.length : ℚ) else 0
    { translation := best_translation
      inliers := fin.best_mask
      num_inliers := fin.best_inliers
      inlier_ratio := ratio }

/-- Best (maximal) inlier count over all sampled hypotheses, `0` for an
empty sample list. -/
def bestScore (pts1 pts2 : List (ℚ × ℚ)) (t : ℚ) (idxs : List ℕ) : ℕ :=
  idxs.foldr (fun i b => max (scoreHyp pts1 pts2 t i) b) 0

/-- First sampled index whose hypothesis attains the best inlier count. -/
def firstBest (pts1 pts2 : List (ℚ × ℚ)) (t : ℚ) (idxs : List ℕ) : Option ℕ :=
  idxs.find? fun i => scoreHyp pts1 pts2 t i == bestScore pts1 pts2 t idxs

theorem scoreHyp_le_bestScore (pts1 pts2 : List (ℚ × ℚ)) (t : ℚ)
    (idxs : List ℕ) (i : ℕ) (h : i ∈ idxs) :
    scoreHyp pts1 pts2 t i ≤ bestScore pts1 pts2 t idxs := by
  induction idxs with
  | nil => simp at h
  | cons a rest ih =>
    have hbs : bestScore pts1 pts2 t (a :: rest) =
        max (scoreHyp pts1 pts2 t a) (bestScore pts1 pts2 t rest) := by
      simp [bestScore]
    rcases List.mem_cons.mp h with rfl | hmem
    · rw [hbs]; exact Nat.le_max_left _ _
    · exact le_trans (ih hmem) (by rw [hbs]; exact Nat.le_max_right _ _)

theorem ransacLoop_count (pts1 pts2 : List (ℚ × ℚ)) (t : ℚ) (s : BState)
    (idxs : List ℕ) :
    (ransacLoop pts1 pts2 t s idxs).best_inliers =
      max s.best_inliers (bestScore pts1 pts2 t idxs) := by
  induction idxs generalizing s with
  | nil => simp [ransacLoop, bestScore]
  | cons a rest ih =>
    have hstep : (ransacStep pts1 pts2 t s a).best_inliers =
        max s.best_inliers (scoreHyp pts1 pts2 t a) := by
      unfold ransacStep
      split_ifs with h
      · simp [hypState]; omega
      · omega
    show (ransacLoop pts1 pts2 t (ransacStep pts1 pts2 t s a) rest).best_inliers = _
    rw [ih, hstep]
    simp [bestScore]
    omega

theorem ransacLoop_no_update (pts1 pts2 : List (ℚ × ℚ)) (t : ℚ) (s : BState)
    (idxs : List ℕ)
    (h : ∀ i ∈ idxs, scoreHyp pts1 pts2 t i ≤ s.best_inliers) :
    ransacLoop pts1 pts2 t s idxs = s := by
  induction idxs with
  | nil => rfl
  | cons a rest ih =>
    have ha : scoreHyp pts1 pts2 t a ≤ s.best_inliers := h a (by simp)
    have hstep : ransacStep pts1 pts2 t s a = s := by
      unfold ransacStep
      split_ifs with hlt
      · omega
      · rfl
    show ransacLoop pts1 pts2 t (ransacStep pts1 pts2 t s a) rest = s
    rw [hstep]
    exact ih fun i hi => h i (by simp [hi])

theorem ransacLoop_firstBest (pts1 pts2 : List (ℚ × ℚ)) (t : ℚ)
    (idxs : List ℕ) (s : BState) (j : ℕ)
    (hlt : s.best_inliers < bestScore pts1 pts2 t idxs)
    (hfind : idxs.find?
        (fun i => scoreHyp pts1 pts2 t i == bestScore pts1 pts2 t idxs) =
      some j) :
    ransacLoop pts1 pts2 t s idxs = hypState pts1 pts2 t j := by
  induction idxs generalizing s with
  | nil => simp [bestScore] at hlt
  | cons a rest ih =>
    have hbs : bestScore pts1 pts2 t (a :: rest) =
        max (scoreHyp pts1 pts2 t a) (bestScore pts1 pts2 t rest) := by
      simp [bestScore]
    by_cases hA : scoreHyp pts1 pts2 t a = bestScore pts1 pts2 t (a :: rest)
    · have hfj : j = a := by
        rw [List.find?_cons_of_pos _ (by simp [hA])] at hfind
        exact (Option.some_inj.mp hfind).symm
      subst hfj
      have hupd : ransacStep pts1 pts2 t s j = hypState pts1 pts2 t j := by
        unfold ransacStep
        rw [if_pos (by omega)]
      show ransacLoop pts1 pts2 t (ransacStep pts1 pts2 t s j) rest = _
      rw [hupd]
      refine ransacLoop_no_update pts1 pts2 t _ rest fun i hi => ?_
      have h1 : scoreHyp pts1 pts2 t i ≤ bestScore pts1 pts2 t rest :=
        scoreHyp_le_bestScore pts1 pts2 t rest i hi
      have h2 : bestScore pts1 pts2 t rest ≤ scoreHyp pts1 pts2 t j := by
        rw [hA, hbs]; omega
      simpa [hypState] using le_trans h1 h2
    · have hrest : bestScore pts1 pts2 t (a :: rest) =
          bestScore pts1 pts2 t rest := by
        rw [hbs] at hA ⊢
        omega
      have hfind' : rest.find?
          (fun i => scoreHyp pts1 pts2 t i == bestScore pts1 pts2 t rest) =
          some j := by
        rw [List.find?_cons_of_neg _ (by simp [hA])] at hfind
        rw [← hrest]
        exact hfind
      have haless : scoreHyp pts1 pts2 t a < bestScore pts1 pts2 t rest := by
        rcases Nat.lt_or_ge (scoreHyp pts1 pts2 t a) (bestScore pts1 pts2 t rest)
          with hcase | hcase
        · exact hcase
        · exact absurd (by rw [hbs]; exact (Nat.max_eq_left hcase).symm) hA
      have hstep : (ransacStep pts1 pts2 t s a).best_inliers <
          bestScore pts1 pts2 t rest := by
        unfold ransacStep
        split_ifs with h
        · simpa [hypState] using haless
        · rw [hrest] at hlt; exact hlt
      show ransacLoop pts1 pts2 t (ransacStep pts1 pts2 t s a) rest = _
      exact ih _ hstep hfind'

theorem bestScore_attained (pts1 pts2 : List (ℚ × ℚ)) (t : ℚ)
    (idxs : List ℕ) (h : idxs ≠ []) :
    ∃ i ∈ idxs, scoreHyp pts1 pts2 t i = bestScore pts1 pts2 t idxs := by
  induction idxs with
  | nil => exact absurd rfl h
  | cons a rest ih =>
    have hbs : bestScore pts1 pts2 t (a :: rest) =
        max (scoreHyp pts1 pts2 t a) (bestScore pts1 pts2 t rest) := by
      simp [bestScore]
    by_cases hrest : rest = []
    · subst hrest
      exact ⟨a, by simp, by simp [bestScore]⟩
    · rcases Nat.le_total (bestScore pts1 pts2 t rest) (scoreHyp pts1 pts2 t a)
        with hle | hle
      · exact ⟨a, by simp, by omega⟩
      · obtain ⟨i, hi, hsc⟩ := ih hrest
        exact ⟨i, by simp [hi], by omega⟩

theorem firstBest_isSome (pts1 pts2 : List (ℚ × ℚ)) (t : ℚ) (idxs : List ℕ)
    (hpos : 0 < bestScore pts1 pts2 t idxs) :
    (firstBest pts1 pts2 t idxs).isSome := by
  have hne : idxs ≠ [] := by
    rintro rfl
    simp [bestScore] at hpos
  obtain ⟨i, hi, hsc⟩ := bestScore_attained pts1 pts2 t idxs hne
  unfold firstBest
  rcases hfind : idxs.find?
      (fun i => scoreHyp pts1 pts2 t i == bestScore pts1 pts2 t idxs) with _ | j
  · rw [List.find?_eq_none] at hfind
    exact absurd (by simp [hsc]) (hfind i hi)
  · simp

theorem estimate_eq_of_nonempty (pts1 pts2 : List (ℚ × ℚ)) (t : ℚ)
    (idxs : List ℕ) (h : 1 ≤ pts1.length) :
    estimate_pure_translation_ransac pts1 pts2 t idxs =
      { translation :=
          if 0 < (ransacLoop pts1 pts2 t
              ⟨0, (0, 0), List.replicate pts1.length false⟩ idxs).best_inliers
          then
            (medianQ (maskedSelect (ransacLoop pts1 pts2 t
                ⟨0, (0, 0), List.replicate pts1.length false⟩ idxs).best_mask
              (diffsX pts1 pts2)),
             medianQ (maskedSelect (ransacLoop pts1 pts2 t
                ⟨0, (0, 0), List.replicate pts1.length false⟩ idxs).best_mask
              (diffsY pts1 pts2)))
          else (ransacLoop pts1 pts2 t
              ⟨0, (0, 0), List.replicate pts1.length false⟩ idxs).best_translation
        inliers := (ransacLoop pts1 pts2 t
            ⟨0, (0, 0), List.replicate pts1.length false⟩ idxs).best_mask
        num_inliers := (ransacLoop pts1 pts2 t
            ⟨0, (0, 0), List.replicate pts1.length false⟩ idxs).best_inliers
        inlier_ratio := ((ransacLoop pts1 pts2 t
            ⟨0, (0, 0), List.replicate pts1.length false⟩ idxs).best_inliers : ℚ) /
          (pts1.length : ℚ) } := by
  unfold estimate_pure_translation_ransac
  rw [if_neg (by omega)]
  have hlen : (0 < pts1.length) = True := by simp; omega
  simp only [hlen, if_true]

theorem estimate_num_inliers_eq (pts1 pts2 : List (ℚ × ℚ)) (t : ℚ)
    (idxs : List ℕ) (hn : 1 ≤ pts1.length) :
    (estimate_pure_translation_ransac pts1 pts2 t idxs).num_inliers =
      bestScore pts1 pts2 t idxs := by
  rw [estimate_eq_of_nonempty pts1 pts2 t idxs hn]
  show (ransacLoop pts1 pts2 t
      ⟨0, (0, 0), List.replicate pts1.length false⟩ idxs).best_inliers = _
  rw [ransacLoop_count]
  simp

theorem estimate_empty (pts2 : List (ℚ × ℚ)) (t : ℚ) (idxs : List ℕ) :
    estimate_pure_translation_ransac [] pts2 t idxs =
      { translation := (0, 0), inliers := [], num_inliers := 0,
        inlier_ratio := 0 } := by
  simp [estimate_pure_translation_ransac]

/-- C6: the loop keeps the hypothesis with the strictly highest inlier count
seen so far (ties keep the first-seen one): the returned inlier count is the
maximum score over all sampled hypotheses, the returned mask is the mask of
the first sampled hypothesis attaining that maximum, the returned translation
is the coordinate-wise median of `pointB - pointA` over that retained inlier
set, and the returned ratio is `inlier_count / total_points`. -/
theorem C6_ransac_best_tracking_and_median (pts1 pts2 : List (ℚ × ℚ)) (t : ℚ)
    (idxs : List ℕ) (hn : 1 ≤ pts1.length) :
    (estimate_pure_translation_ransac pts1 pts2 t idxs).num_inliers =
      bestScore pts1 pts2 t idxs ∧
    (estimate_pure_translation_ransac pts1 pts2 t idxs).inlier_ratio =
      ((estimate_pure_translation_ransac pts1 pts2 t idxs).num_inliers : ℚ) /
        (pts1.length : ℚ) ∧
    (0 < bestScore pts1 pts2 t idxs → (firstBest pts1 pts2 t idxs).isSome) ∧
    (∀ j, firstBest pts1 pts2 t idxs = some j →
      0 < bestScore pts1 pts2 t idxs →
      (estimate_pure_translation_ransac pts1 pts2 t idxs).inliers =
        inlierMask pts1 pts2 t (hypTrans pts1 pts2 j) ∧
      (estimate_pure_translation_ransac pts1 pts2 t idxs).translation =
        (medianQ (maskedSelect (inlierMask pts1 pts2 t (hypTrans pts1 pts2 j))
            (diffsX pts1 pts2)),
         medianQ (maskedSelect (inlierMask pts1 pts2 t (hypTrans pts1 pts2 j))
            (diffsY pts1 pts2)))) ∧
    (bestScore pts1 pts2 t idxs = 0 →
      estimate_pure_translation_ransac pts1 pts2 t idxs =
        { translation := (0, 0), inliers := List.replicate pts1.length false,
          num_inliers := 0, inlier_ratio := 0 }) := by
  have hcount : (ransacLoop pts1 pts2 t
      ⟨0, (0, 0), List.replicate pts1.length false⟩ idxs).best_inliers =
      bestScore pts1 pts2 t idxs := by
    rw [ransacLoop_count]
    simp
  rw [estimate_eq_of_nonempty pts1 pts2 t idxs hn]
  refine ⟨hcount, rfl, firstBest_isSome pts1 pts2 t idxs, ?_, ?_⟩
  · intro j hj hpos
    have hfin : ransacLoop pts1 pts2 t
        ⟨0, (0, 0), List.replicate pts1.length false⟩ idxs =
        hypState pts1 pts2 t j := by
      apply ransacLoop_firstBest pts1 pts2 t idxs _ j
      · simpa using hpos
      · exact hj
    rw [hfin]
    have hsc : scoreHyp pts1 pts2 t j = bestScore pts1 pts2 t idxs := by
      have := List.find?_some hj
      simpa using this
    constructor
    · rfl
    · show (if 0 < (hypState pts1 pts2 t j).best_inliers then _ else _) = _
      rw [if_pos (by simpa [hypState, hsc] using hpos)]
      rfl
  · intro hzero
    have hfin : ransacLoop pts1 pts2 t
        ⟨0, (0, 0), List.replicate pts1.length false⟩ idxs =
        ⟨0, (0, 0), List.replicate pts1.length false⟩ := by
      apply ransacLoop_no_update
      intro i hi
      have := scoreHyp_le_bestScore pts1 pts2 t idxs i hi
      simpa [hzero] using this
    rw [hfin]
    simp

/-- Witness for C6 on one exactly-matching pair with threshold `1` and a
single sampled index `0`. -/
theorem C6_ransac_best_tracking_and_median_witness :
    (estimate_pure_translation_ransac [((0 : ℚ), (0 : ℚ))]
        [((0 : ℚ), (0 : ℚ))] 1 [0]).inliers =
      inlierMask [((0 : ℚ), (0 : ℚ))] [((0 : ℚ), (0 : ℚ))] 1
        (hypTrans [((0 : ℚ), (0 : ℚ))] [((0 : ℚ), (0 : ℚ))] 0) :=
  (((C6_ransac_best_tracking_and_median [((0 : ℚ), (0 : ℚ))]
      [((0 : ℚ), (0 : ℚ))] 1 [0] (by norm_num)).2.2.2.1 0
      (by norm_num [firstBest, bestScore, scoreHyp, inlierMask, isInlier,
        hypTrans, List.find?])
      (by norm_num [bestScore, scoreHyp, inlierMask, isInlier, hypTrans]))).1

/-- Zero-translation record appended by `PanoramaStitcher._match_and_align`
when a pair has fewer than four matches. -/
def zero_translation_record (i num_matches : ℕ) : TransRecord :=
  { pair := (i, i + 1), translation := (0, 0), num_matches := num_matches,
    num_inliers := 0, inlier_ratio := 0 }

/-- One iteration of `PanoramaStitcher._match_and_align` (src/pipeline.py):
given the number of raw matches for the pair `(i, i+1)` and the matched point
lists, either record a zero translation (fewer than 4 matches) or run the
pure-translation RANSAC. -/
def match_and_align_pair (i num_matches : ℕ) (pts1 pts2 : List (ℚ × ℚ))
    (t : ℚ) (idxs : List ℕ) : TransRecord :=
  if num_matches < 4 then zero_translation_record i num_matches
  else
    let r := estimate_pure_translation_ransac pts1 pts2 t idxs
    { pair := (i, i + 1), translation := r.translation,
      num_matches := num_matches, num_inliers := r.num_inliers,
      inlier_ratio := r.inlier_ratio }

/-- C7: fewer than four correspondences yields the zero-translation record
with `inlier_count = 0` and `inlier_ratio = 0`, and the estimator itself
returns the zero estimate on an empty point list; both paths are total
functions, so no error is raised. -/
theorem C7_insufficient_data_degrades (i num_matches : ℕ)
    (pts1 pts2 : List (ℚ × ℚ)) (t : ℚ) (idxs : List ℕ) :
    (num_matches < 4 →
      match_and_align_pair i num_matches pts1 pts2 t idxs =
        { pair := (i, i + 1), translation := (0, 0),
          num_matches := num_matches, num_inliers := 0, inlier_ratio := 0 }) ∧
    estimate_pure_translation_ransac [] pts2 t idxs =
      { translation := (0, 0), inliers := [], num_inliers := 0,
        inlier_ratio := 0 } := by
  constructor
  · intro h
    unfold match_and_align_pair
    rw [if_pos h]
    rfl
  · exact estimate_empty pts2 t idxs

/-- Witness for C7 with three matches. -/
theorem C7_insufficient_data_degrades_witness :
    match_and_align_pair 0 3 [] [] 1 [] =
      { pair := (0, 1), translation := (0, 0), num_matches := 3,
        num_inliers := 0, inlier_ratio := 0 } :=
  (C7_insufficient_data_degrades 0 3 [] [] 1 []).1 (by norm_num)

/-- C10: with at least one point pair, equally long point lists, valid
sampled indices, at least one iteration, and a positive threshold, every
sampled hypothesis counts its generating pair as an inlier (its residual is
exactly zero), so the returned `num_inliers` is at least `1`; the estimator
returns `num_inliers = 0` on the empty input. -/
theorem C10_inlier_count_positive (pts1 pts2 : List (ℚ × ℚ)) (t : ℚ)
    (idxs : List ℕ) (hn : 1 ≤ pts1.length) (hlen : pts2.length = pts1.length)
    (hidx : ∀ i ∈ idxs, i < pts1.length) (hne : idxs ≠ []) (ht : 0 < t) :
    (∀ i ∈ idxs, 1 ≤ scoreHyp pts1 pts2 t i) ∧
    1 ≤ (estimate_pure_translation_ransac pts1 pts2 t idxs).num_inliers ∧
    (∀ (pts2' : List (ℚ × ℚ)) (t' : ℚ) (idxs' : List ℕ),
      (estimate_pure_translation_ransac [] pts2' t' idxs').num_inliers = 0) := by
  have hscore : ∀ i ∈ idxs, 1 ≤ scoreHyp pts1 pts2 t i := by
    intro i hi
    have hilt : i < pts1.length := hidx i hi
    have hilt2 : i < pts2.length := by omega
    have hmin : i < (inlierMask pts1 pts2 t (hypTrans pts1 pts2 i)).length := by
      rw [inlierMask, List.length_zipWith]
      omega
    have h1 : pts1.getD i (0, 0) = pts1[i] := List.getD_eq_getElem pts1 (0, 0) hilt
    have h2 : pts2.getD i (0, 0) = pts2[i] := List.getD_eq_getElem pts2 (0, 0) hilt2
    have hmem : (inlierMask pts1 pts2 t (hypTrans pts1 pts2 i)).get
        ⟨i, hmin⟩ = true := by
      show (inlierMask pts1 pts2 t (hypTrans pts1 pts2 i))[i] = true
      simp only [inlierMask, List.getElem_zipWith, isInlier, hypTrans, h1, h2,
        decide_eq_true_eq]
      refine ⟨le_of_lt ht, ?_⟩
      ring_nf
      positivity
    have htrue : true ∈ inlierMask pts1 pts2 t (hypTrans pts1 pts2 i) := by
      rw [← hmem]
      exact List.get_mem _ _ _
    have hcnt := List.count_pos_iff.mpr htrue
    rw [scoreHyp]
    omega
  refine ⟨hscore, ?_, fun pts2' t' idxs' => by rw [estimate_empty]⟩
  obtain ⟨i0, hi0⟩ := List.exists_mem_of_ne_nil idxs hne
  have h1 : 1 ≤ scoreHyp pts1 pts2 t i0 := hscore i0 hi0
  have h2 : scoreHyp pts1 pts2 t i0 ≤ bestScore pts1 pts2 t idxs :=
    scoreHyp_le_bestScore pts1 pts2 t idxs i0 hi0
  have h3 := estimate_num_inliers_eq pts1 pts2 t idxs hn
  omega

/-- Witness for C10 on one exactly-matching pair. -/
theorem C10_inlier_count_positive_witness :
    1 ≤ (estimate_pure_translation_ransac [((0 : ℚ), (0 : ℚ))]
        [((0 : ℚ), (0 : ℚ))] 1 [0]).num_inliers :=
  (C10_inlier_count_positive [((0 : ℚ), (0 : ℚ))] [((0 : ℚ), (0 : ℚ))] 1 [0]
    (by norm_num) rfl (by simp) (by simp) (by norm_num)).2.1

/-! ### Cylindrical projector (src/warping/cylindrical.py, claim C1) -/

/-- One colour plane of an image: height, width and a total pixel function
(`cv2.remap` acts channelwise, so one plane models the warp faithfully). -/
structure QImage where
  h : ℕ
  w : ℕ
  pix : ℕ → ℕ → ℚ

/-- Map `map_x` built by `warp_cylindrical`:
`x_planar = f * w_normalized / cos(θ) + xc` with
`θ = (y_cyl - yc)/f` and `w_normalized = (x_cyl - xc)/f`. -/
def mapXQ (cosQ : ℚ → ℚ) (f xc yc : ℚ) (x_cyl y_cyl : ℕ) : ℚ :=
  f * (((x_cyl : ℚ) - xc) / f) / cosQ (((y_cyl : ℚ) - yc) / f) + xc

/-- Map `map_y` built by `warp_cylindrical`: `y_planar = f * tan(θ) + yc`. -/
def mapYQ (tanQ : ℚ → ℚ) (f yc : ℚ) (y_cyl : ℕ) : ℚ :=
  f * tanQ (((y_cyl : ℚ) - yc) / f) + yc

/-- Source fetch with `cv2.BORDER_CONSTANT` semantics: integer coordinates
outside the source grid read the border value `0`. -/
def fetchPix (img : QImage) (xi yi : ℤ) : ℚ :=
  if 0 ≤ xi ∧ xi < (img.w : ℤ) ∧ 0 ≤ yi ∧ yi < (img.h : ℤ) then
    img.pix yi.toNat xi.toNat
  else 0

/-- Bilinear interpolation at a fractional source position
(`cv2.INTER_LINEAR` with constant zero border). -/
def bilinearSample (img : QImage) (sx sy : ℚ) : ℚ :=
  let x0 := ratFloor sx
  let y0 := ratFloor sy
  let a := sx - (x0 : ℚ)
  let b := sy - (y0 : ℚ)
  (1 - a) * (1 - b) * fetchPix img x0 y0 +
    a * (1 - b) * fetchPix img (x0 + 1) y0 +
    (1 - a) * b * fetchPix img x0 (y0 + 1) +
    a * b * fetchPix img (x0 + 1) (y0 + 1)

/-- `warp_cylindrical` from src/warping/cylindrical.py: backward mapping of
every destination pixel through `(map_x, map_y)` followed by bilinear
remapping with constant zero border; `center = None` defaults to the image
center `(w/2, h/2)`.  `cosQ`/`tanQ` stand for `np.cos`/`np.tan`. -/
def warp_cylindrical (cosQ tanQ : ℚ → ℚ) (img : QImage) (focal_length : ℚ)
    (center : Option (ℚ × ℚ)) : QImage :=
  let c := match center with
    | none => ((img.w : ℚ) / 2, (img.h : ℚ) / 2)
    | some c => c
  { h := img.h
    w := img.w
    pix := fun y_cyl x_cyl =>
      bilinearSample img (mapXQ cosQ focal_length c.1 c.2 x_cyl y_cyl)
        (mapYQ tanQ focal_length c.2 y_cyl) }

/-- A fractional source position lies outside the source bounds when no
source pixel carries bilinear weight there: at or beyond one pixel to the
left/top of the grid, or at or beyond the grid extent to the right/bottom. -/
def outsideSrc (img : QImage) (sx sy : ℚ) : Prop :=
  sx ≤ -1 ∨ (img.w : ℚ) ≤ sx ∨ sy ≤ -1 ∨ (img.h : ℚ) ≤ sy

theorem fetchPix_left (img : QImage) (xi yi : ℤ) (h : xi < 0) :
    fetchPix img xi yi = 0 := by
  unfold fetchPix
  rw [if_neg]
  intro hc
  omega

theorem fetchPix_right (img : QImage) (xi yi : ℤ) (h : (img.w : ℤ) ≤ xi) :
    fetchPix img xi yi = 0 := by
  unfold fetchPix
  rw [if_neg]
  intro hc
  omega

theorem fetchPix_top (img : QImage) (xi yi : ℤ) (h : yi < 0) :
    fetchPix img xi yi = 0 := by
  unfold fetchPix
  rw [if_neg]
  intro hc
  omega

theorem fetchPix_bottom (img : QImage) (xi yi : ℤ) (h : (img.h : ℤ) ≤ yi) :
    fetchPix img xi yi = 0 := by
  unfold fetchPix
  rw [if_neg]
  intro hc
  omega

theorem bilinearSample_outside (img : QImage) (sx sy : ℚ)
    (h : outsideSrc img sx sy) : bilinearSample img sx sy = 0 := by
  simp only [bilinearSample]
  rcases h with h | h | h | h
  · have hx0 : ratFloor sx ≤ -1 := by
      rw [ratFloor_eq]
      calc ⌊sx⌋ ≤ ⌊(-1 : ℚ)⌋ := Int.floor_mono h
      _ = -1 := by norm_num
    have e1 : fetchPix img (ratFloor sx) (ratFloor sy) = 0 :=
      fetchPix_left img _ _ (by omega)
    have e3 : fetchPix img (ratFloor sx) (ratFloor sy + 1) = 0 :=
      fetchPix_left img _ _ (by omega)
    rcases lt_or_eq_of_le hx0 with hlt | heq
    · have e2 : fetchPix img (ratFloor sx + 1) (ratFloor sy) = 0 :=
        fetchPix_left img _ _ (by omega)
      have e4 : fetchPix img (ratFloor sx + 1) (ratFloor sy + 1) = 0 :=
        fetchPix_left img _ _ (by omega)
      rw [e1, e2, e3, e4]
      ring
    · have hge : (-1 : ℚ) ≤ sx := by
        have := Int.floor_le sx
        rw [← ratFloor_eq, heq] at this
        exact_mod_cast this
      have hsx : sx = -1 := le_antisymm h hge
      have ha : sx - ((ratFloor sx : ℤ) : ℚ) = 0 := by
        rw [heq, hsx]
        norm_num
      rw [e1, e3, ha]
      ring
  · have hx0 : (img.w : ℤ) ≤ ratFloor sx := by
      rw [ratFloor_eq]
      exact Int.le_floor.mpr (by exact_mod_cast h)
    have e1 : fetchPix img (ratFloor sx) (ratFloor sy) = 0 :=
      fetchPix_right img _ _ (by omega)
    have e2 : fetchPix img (ratFloor sx + 1) (ratFloor sy) = 0 :=
      fetchPix_right img _ _ (by omega)
    have e3 : fetchPix img (ratFloor sx) (ratFloor sy + 1) = 0 :=
      fetchPix_right img _ _ (by omega)
    have e4 : fetchPix img (ratFloor sx + 1) (ratFloor sy + 1) = 0 :=
      fetchPix_right img _ _ (by omega)
    rw [e1, e2, e3, e4]
    ring
  · have hy0 : ratFloor sy ≤ -1 := by
      rw [ratFloor_eq]
      calc ⌊sy⌋ ≤ ⌊(-1 : ℚ)⌋ := Int.floor_mono h
      _ = -1 := by norm_num
    have e1 : fetchPix img (ratFloor sx) (ratFloor sy) = 0 :=
      fetchPix_top img _ _ (by omega)
    have e2 : fetchPix img (ratFloor sx + 1) (ratFloor sy) = 0 :=
      fetchPix_top img _ _ (by omega)
    rcases lt_or_eq_of_le hy0 with hlt | heq
    · have e3 : fetchPix img (ratFloor sx) (ratFloor sy + 1) = 0 :=
        fetchPix_top img _ _ (by omega)
      have e4 : fetchPix img (ratFloor sx + 1) (ratFloor sy + 1) = 0 :=
        fetchPix_top img _ _ (by omega)
      rw [e1, e2, e3, e4]
      ring
    · have hge : (-1 : ℚ) ≤ sy := by
        have := Int.floor_le sy
        rw [← ratFloor_eq, heq] at this
        exact_mod_cast this
      have hsy : sy = -1 := le_antisymm h hge
      have hb : sy - ((ratFloor sy : ℤ) : ℚ) = 0 := by
        rw [heq, hsy]
        norm_num
      rw [e1, e2, hb]
      ring
  · have hy0 : (img.h : ℤ) ≤ ratFloor sy := by
      rw [ratFloor_eq]
      exact Int.le_floor.mpr (by exact_mod_cast h)
    have e1 : fetchPix img (ratFloor sx) (ratFloor sy) = 0 :=
      fetchPix_bottom img _ _ (by omega)
    have e2 : fetchPix img (ratFloor sx + 1) (ratFloor sy) = 0 :=
      fetchPix_bottom img _ _ (by omega)
    have e3 : fetchPix img (ratFloor sx) (ratFloor sy + 1) = 0 :=
      fetchPix_bottom img _ _ (by omega)
    have e4 : fetchPix img (ratFloor sx + 1) (ratFloor sy + 1) = 0 :=
      fetchPix_bottom img _ _ (by omega)
    rw [e1, e2, e3, e4]
    ring

/-- C1: the cylindrical projector keeps the input dimensions, and every
destination pixel `(x, y)` is the bilinear sample of the source at
`x_src = f·u/cos(θ) + xc`, `y_src = f·tan(θ) + yc` with `θ = (y - yc)/f`,
`u = (x - xc)/f`; when that source position falls outside the source bounds
the written value is the zero sentinel. -/
theorem C1_cylindrical_projection (cosQ tanQ : ℚ → ℚ) (img : QImage)
    (f xc yc : ℚ) (x y : ℕ) (_hx : x < img.w) (_hy : y < img.h) :
    (warp_cylindrical cosQ tanQ img f (some (xc, yc))).h = img.h ∧
    (warp_cylindrical cosQ tanQ img f (some (xc, yc))).w = img.w ∧
    (warp_cylindrical cosQ tanQ img f (some (xc, yc))).pix y x =
      bilinearSample img
        (f * (((x : ℚ) - xc) / f) / cosQ (((y : ℚ) - yc) / f) + xc)
        (f * tanQ (((y : ℚ) - yc) / f) + yc) ∧
    (outsideSrc img
        (f * (((x : ℚ) - xc) / f) / cosQ (((y : ℚ) - yc) / f) + xc)
        (f * tanQ (((y : ℚ) - yc) / f) + yc) →
      (warp_cylindrical cosQ tanQ img f (some (xc, yc))).pix y x = 0) := by
  refine ⟨rfl, rfl, rfl, fun hout => ?_⟩
  show bilinearSample img (mapXQ cosQ f xc yc x y) (mapYQ tanQ f yc y) = 0
  exact bilinearSample_outside img _ _ hout

/-- Witness for C1 on a constant 2×2 plane with `cos ≡ 1`, `tan ≡ 0`,
`f = 1`, centre `(0, 0)`, destination pixel `(1, 0)`. -/
theorem C1_cylindrical_projection_witness :
    (warp_cylindrical (fun _ => 1) (fun _ => 0) ⟨2, 2, fun _ _ => 7⟩ 1
        (some (0, 0))).pix 0 1 =
      bilinearSample ⟨2, 2, fun _ _ => 7⟩
        (1 * (((1 : ℚ) - 0) / 1) / (fun (_ : ℚ) => (1 : ℚ)) (((0 : ℚ) - 0) / 1) + 0)
        (1 * (fun (_ : ℚ) => (0 : ℚ)) (((0 : ℚ) - 0) / 1) + 0) :=
  (C1_cylindrical_projection (fun _ => 1) (fun _ => 0) ⟨2, 2, fun _ _ => 7⟩ 1
    0 0 1 0 (by norm_num) (by norm_num)).2.2.1

/-! ### Border trim (src/stitching/crop.py, claim C8) -/

/-- Width of a grayscale image stored as a list of rows (numpy arrays are
rectangular, so the head row's length is the width). -/
def grayWidth (img : List (List ℚ)) : ℕ := (img.headD []).length

/-- Pixel accessor for a grayscale row-list image. -/
def pixAt (img : List (List ℚ)) (y x : ℕ) : ℚ := (img.getD y []).getD x 0

/-- Per-row flags `rows = np.any(non_black, axis=1)` where
`non_black = gray > threshold`. -/
def rowFlags (img : List (List ℚ)) (t : ℚ) : List Bool :=
  img.map fun r => r.any fun v => decide (t < v)

/-- Per-column flags `cols = np.any(non_black, axis=0)`. -/
def colFlags (img : List (List ℚ)) (t : ℚ) : List Bool :=
  (List.range (grayWidth img)).map fun j =>
    img.any fun r => decide (t < r.getD j 0)

/-- Index of the first `true` flag (`np.where(flags)[0][0]`); returns the
length when no flag is set. -/
def firstTrue : List Bool → ℕ
  | [] => 0
  | b :: rest => if b then 0 else firstTrue rest + 1

/-- Index of the last `true` flag (`np.where(flags)[0][-1]`). -/
def lastTrue (l : List Bool) : ℕ := l.length - 1 - firstTrue l.reverse

/-- `crop_panorama` from src/stitching/crop.py on a grayscale image (for a
BGR input the source first converts to gray with `cv2.cvtColor`; the crop
itself then slices the original image with the bounds found on the gray
plane, which for the claims below is modelled on the gray plane itself).
An empty image raises `ValueError`; if no pixel exceeds the threshold the
image is returned unmodified; otherwise the image is sliced to
`[y_min : y_max+1, x_min : x_max+1]`. -/
def crop_panorama (img : List (List ℚ)) (threshold : ℚ) :
    Except String (List (List ℚ)) :=
  if img.length = 0 ∨ grayWidth img = 0 then
    Except.error "Invalid image for cropping"
  else
    let rows := rowFlags img threshold
    let cols := colFlags img threshold
    if rows.all (fun b => !b) ∨ cols.all (fun b => !b) then Except.ok img
    else
      let y_min := firstTrue rows
      let y_max := lastTrue rows
      let x_min := firstTrue cols
      let x_max := lastTrue cols
      Except.ok (((img.drop y_min).take (y_max + 1 - y_min)).map
        fun r => (r.drop x_min).take (x_max + 1 - x_min))

theorem firstTrue_lt_length (l : List Bool) (h : true ∈ l) :
    firstTrue l < l.length := by
  induction l with
  | nil => simp at h
  | cons b rest ih =>
    unfold firstTrue
    split_ifs with hb
    · simp
    · have hb' : b = false := by
        cases b
        · rfl
        · exact absurd rfl hb
      have hmem : true ∈ rest := by
        rcases List.mem_cons.mp h with heq | hmem
        · rw [hb'] at heq; exact absurd heq.symm (by simp)
        · exact hmem
      have := ih hmem
      simp
      omega

theorem firstTrue_flag (l : List Bool) (h : true ∈ l) :
    l.getD (firstTrue l) false = true := by
  induction l with
  | nil => simp at h
  | cons b rest ih =>
    unfold firstTrue
    split_ifs with hb
    · simpa using hb
    · have hb' : b = false := by
        cases b
        · rfl
        · exact absurd rfl hb
      have hmem : true ∈ rest := by
        rcases List.mem_cons.mp h with heq | hmem
        · rw [hb'] at heq; exact absurd heq.symm (by simp)
        · exact hmem
      simpa using ih hmem

theorem firstTrue_min (l : List Bool) (k : ℕ) (hk : k < firstTrue l) :
    l.getD k false = false := by
  induction l generalizing k with
  | nil => simp [List.getD]
  | cons b rest ih =>
    unfold firstTrue at hk
    split_ifs at hk with hb
    · omega
    · cases k with
      | zero =>
        cases b with
        | false => rfl
        | true => exact absurd rfl hb
      | succ k =>
        simp only [List.getD_cons_succ]
        exact ih k (by omega)

theorem reverse_getD (l : List Bool) (k : ℕ) (hk : k < l.length) :
    l.reverse.getD k false = l.getD (l.length - 1 - k) false := by
  have hk' : k < l.reverse.length := by simpa using hk
  rw [List.getD_eq_getElem _ _ hk', List.getElem_reverse,
    List.getD_eq_getElem _ _ (by omega)]

theorem lastTrue_lt_length (l : List Bool) (h : true ∈ l) :
    lastTrue l < l.length := by
  have hm : firstTrue l.reverse < l.length := by
    have := firstTrue_lt_length l.reverse (by simpa using h)
    simpa using this
  unfold lastTrue
  omega

theorem lastTrue_flag (l : List Bool) (h : true ∈ l) :
    l.getD (lastTrue l) false = true := by
  have hrev : true ∈ l.reverse := by simpa using h
  have hm : firstTrue l.reverse < l.length := by
    have := firstTrue_lt_length l.reverse hrev
    simpa using this
  have := firstTrue_flag l.reverse hrev
  rw [reverse_getD l (firstTrue l.reverse) hm] at this
  exact this

theorem lastTrue_max (l : List Bool) (h : true ∈ l) (k : ℕ)
    (hk : lastTrue l < k) (hklen : k < l.length) : l.getD k false = false := by
  have hrev : true ∈ l.reverse := by simpa using h
  have hm : firstTrue l.reverse < l.length := by
    have := firstTrue_lt_length l.reverse hrev
    simpa using this
  have hk' : l.length - 1 - k < firstTrue l.reverse := by
    unfold lastTrue at hk
    omega
  have := firstTrue_min l.reverse (l.length - 1 - k) hk'
  rw [reverse_getD l (l.length - 1 - k) (by omega)] at this
  have heq : l.length - 1 - (l.length - 1 - k) = k := by omega
  rw [heq] at this
  exact this

theorem rowFlags_length (img : List (List ℚ)) (t : ℚ) :
    (rowFlags img t).length = img.length := by
  simp [rowFlags]

theorem colFlags_length (img : List (List ℚ)) (t : ℚ) :
    (colFlags img t).length = grayWidth img := by
  simp [colFlags]

theorem rowFlags_getD (img : List (List ℚ)) (t : ℚ) (y : ℕ)
    (hy : y < img.length) :
    (rowFlags img t).getD y false =
      (img.getD y []).any fun v => decide (t < v) := by
  have h1 : y < (rowFlags img t).length := by rw [rowFlags_length]; exact hy
  rw [List.getD_eq_getElem _ _ h1, List.getD_eq_getElem img [] hy]
  simp only [rowFlags, List.getElem_map]

theorem colFlags_getD (img : List (List ℚ)) (t : ℚ) (j : ℕ)
    (hj : j < grayWidth img) :
    (colFlags img t).getD j false =
      img.any fun r => decide (t < r.getD j 0) := by
  have h1 : j < (colFlags img t).length := by rw [colFlags_length]; exact hj
  rw [List.getD_eq_getElem _ _ h1]
  simp only [colFlags, List.getElem_map, List.getElem_range]

theorem flag_mem_of_getD (l : List Bool) (k : ℕ) (hk : k < l.length)
    (h : l.getD k false = true) : true ∈ l := by
  rw [List.getD_eq_getElem _ _ hk] at h
  exact h ▸ List.getElem_mem hk

theorem row_mem (img : List (List ℚ)) (y : ℕ) (hy : y < img.length) :
    img.getD y [] ∈ img := by
  rw [List.getD_eq_getElem img [] hy]
  exact List.getElem_mem hy

theorem rowFlag_of_pix (img : List (List ℚ)) (t : ℚ)
    (hrect : ∀ r ∈ img, r.length = grayWidth img) (y x : ℕ)
    (hy : y < img.length) (hx : x < grayWidth img)
    (hpix : t < pixAt img y x) : (rowFlags img t).getD y false = true := by
  rw [rowFlags_getD img t y hy, List.any_eq_true]
  have hrlen : (img.getD y []).length = grayWidth img :=
    hrect _ (row_mem img y hy)
  have hxr : x < (img.getD y []).length := by omega
  refine ⟨(img.getD y []).getD x 0, ?_, by simpa [pixAt] using hpix⟩
  rw [List.getD_eq_getElem _ 0 hxr]
  exact List.getElem_mem hxr

theorem colFlag_of_pix (img : List (List ℚ)) (t : ℚ) (y x : ℕ)
    (hy : y < img.length) (hx : x < grayWidth img)
    (hpix : t < pixAt img y x) : (colFlags img t).getD x false = true := by
  rw [colFlags_getD img t x hx, List.any_eq_true]
  exact ⟨img.getD y [], row_mem img y hy, by simpa [pixAt] using hpix⟩

/-- Concrete canvas for the crop test: a single bright pixel surrounded by a
10-pixel all-black border on every side. -/
def borderCanvas : List (List ℚ) :=
  List.replicate 10 (List.replicate 21 (0 : ℚ)) ++
    [List.replicate 10 (0 : ℚ) ++ [255] ++ List.replicate 10 (0 : ℚ)] ++
    List.replicate 10 (List.replicate 21 (0 : ℚ))

/-- C8: with no pixel above the threshold the canvas is returned unmodified;
otherwise the crop returns exactly the slice bounded by the first/last
bright row and column, those bounds are attained by bright pixels and
enclose every bright pixel (the tight bounding box); the concrete canvas
with a 10-pixel black border crops to exactly its interior. -/
theorem C8_border_trim (img : List (List ℚ)) (t : ℚ) :
    (0 < img.length → 0 < grayWidth img →
      (∀ r ∈ img, ∀ v ∈ r, v ≤ t) → crop_panorama img t = Except.ok img) ∧
    ((∀ r ∈ img, r.length = grayWidth img) →
      ∀ y0 x0, y0 < img.length → x0 < grayWidth img → t < pixAt img y0 x0 →
      crop_panorama img t = Except.ok
        (((img.drop (firstTrue (rowFlags img t))).take
            (lastTrue (rowFlags img t) + 1 - firstTrue (rowFlags img t))).map
          fun r => (r.drop (firstTrue (colFlags img t))).take
            (lastTrue (colFlags img t) + 1 - firstTrue (colFlags img t))) ∧
      (∃ x, x < grayWidth img ∧ t < pixAt img (firstTrue (rowFlags img t)) x) ∧
      (∃ x, x < grayWidth img ∧ t < pixAt img (lastTrue (rowFlags img t)) x) ∧
      (∃ y, y < img.length ∧ t < pixAt img y (firstTrue (colFlags img t))) ∧
      (∃ y, y < img.length ∧ t < pixAt img y (lastTrue (colFlags img t))) ∧
      (∀ y x, y < img.length → x < grayWidth img → t < pixAt img y x →
        firstTrue (rowFlags img t) ≤ y ∧ y ≤ lastTrue (rowFlags img t) ∧
        firstTrue (colFlags img t) ≤ x ∧ x ≤ lastTrue (colFlags img t))) ∧
    crop_panorama borderCanvas 10 = Except.ok [[(255 : ℚ)]] := by
  refine ⟨?_, ?_, by rfl⟩
  · intro hh hw hall
    have h1 : ¬(img.length = 0 ∨ grayWidth img = 0) := by
      push_neg
      omega
    have h2 : (rowFlags img t).all (fun b => !b) = true := by
      rw [List.all_eq_true]
      intro b hb
      obtain ⟨r, hr, rfl⟩ := List.mem_map.mp hb
      have hany : (r.any fun v => decide (t < v)) = false := by
        rw [List.any_eq_false]
        intro v hv
        have hle := hall r hr v hv
        simp only [decide_eq_true_eq, not_lt]
        linarith
      simp [hany]
    simp only [crop_panorama]
    rw [if_neg h1, if_pos (Or.inl h2)]
  · intro hrect y0 x0 hy0 hx0 hpix
    have hflagy0 : (rowFlags img t).getD y0 false = true :=
      rowFlag_of_pix img t hrect y0 x0 hy0 hx0 hpix
    have hflagx0 : (colFlags img t).getD x0 false = true :=
      colFlag_of_pix img t y0 x0 hy0 hx0 hpix
    have hmemy : true ∈ rowFlags img t :=
      flag_mem_of_getD _ y0 (by rw [rowFlags_length]; exact hy0) hflagy0
    have hmemx : true ∈ colFlags img t :=
      flag_mem_of_getD _ x0 (by rw [colFlags_length]; exact hx0) hflagx0
    have hyminlt : firstTrue (rowFlags img t) < img.length := by
      have := firstTrue_lt_length _ hmemy
      rwa [rowFlags_length] at this
    have hymaxlt : lastTrue (rowFlags img t) < img.length := by
      have := lastTrue_lt_length _ hmemy
      rwa [rowFlags_length] at this
    have hxminlt : firstTrue (colFlags img t) < grayWidth img := by
      have := firstTrue_lt_length _ hmemx
      rwa [colFlags_length] at this
    have hxmaxlt : lastTrue (colFlags img t) < grayWidth img := by
      have := lastTrue_lt_length _ hmemx
      rwa [colFlags_length] at this
    have hrowexists : ∀ y, y < img.length →
        (rowFlags img t).getD y false = true →
        ∃ x, x < grayWidth img ∧ t < pixAt img y x := by
      intro y hy hf
      rw [rowFlags_getD img t y hy, List.any_eq_true] at hf
      obtain ⟨v, hv, hvp⟩ := hf
      obtain ⟨i, hi, rfl⟩ := List.mem_iff_getElem.mp hv
      have hrlen : (img.getD y []).length = grayWidth img :=
        hrect _ (row_mem img y hy)
      refine ⟨i, by omega, ?_⟩
      have : pixAt img y i = (img.getD y [])[i] := by
        rw [pixAt, List.getD_eq_getElem _ 0 hi]
      rw [this]
      simpa using hvp
    have hcolexists : ∀ x, x < grayWidth img →
        (colFlags img t).getD x false = true →
        ∃ y, y < img.length ∧ t < pixAt img y x := by
      intro x hx hf
      rw [colFlags_getD img t x hx, List.any_eq_true] at hf
      obtain ⟨r, hr, hrp⟩ := hf
      obtain ⟨i, hi, rfl⟩ := List.mem_iff_getElem.mp hr
      refine ⟨i, hi, ?_⟩
      have : pixAt img i x = img[i].getD x 0 := by
        rw [pixAt, List.getD_eq_getElem img [] hi]
      rw [this]
      simpa using hrp
    refine ⟨?_, ?_, ?_, ?_, ?_, ?_⟩
    · have h1 : ¬(img.length = 0 ∨ grayWidth img = 0) := by
        push_neg
        omega
      have h2 : ¬((rowFlags img t).all (fun b => !b) = true ∨
          (colFlags img t).all (fun b => !b) = true) := by
        rintro (hall | hall)
        · have := List.all_eq_true.mp hall true hmemy
          simp at this
        · have := List.all_eq_true.mp hall true hmemx
          simp at this
      simp only [crop_panorama]
      rw [if_neg h1, if_neg h2]
    · exact hrowexists _ hyminlt (firstTrue_flag _ hmemy)
    · exact hrowexists _ hymaxlt (lastTrue_flag _ hmemy)
    · exact hcolexists _ hxminlt (firstTrue_flag _ hmemx)
    · exact hcolexists _ hxmaxlt (lastTrue_flag _ hmemx)
    · intro y x hy hx hp
      have hfy : (rowFlags img t).getD y false = true :=
        rowFlag_of_pix img t hrect y x hy hx hp
      have hfx : (colFlags img t).getD x false = true :=
        colFlag_of_pix img t y x hy hx hp
      refine ⟨?_, ?_, ?_, ?_⟩
      · by_contra hc
        push_neg at hc
        rw [firstTrue_min _ y hc] at hfy
        exact absurd hfy (by simp)
      · by_contra hc
        push_neg at hc
        rw [lastTrue_max _ hmemy y hc
          (by rw [rowFlags_length]; exact hy)] at hfy
        exact absurd hfy (by simp)
      · by_contra hc
        push_neg at hc
        rw [firstTrue_min _ x hc] at hfx
        exact absurd hfx (by simp)
      · by_contra hc
        push_neg at hc
        rw [lastTrue_max _ hmemx x hc
          (by rw [colFlags_length]; exact hx)] at hfx
        exact absurd hfx (by simp)

/-- Witness for C8: the all-dark case on a concrete 1×1 canvas. -/
theorem C8_border_trim_witness :
    crop_panorama [[(3 : ℚ)]] 10 = Except.ok [[(3 : ℚ)]] :=
  (C8_border_trim [[(3 : ℚ)]] 10).1 (by norm_num) (by norm_num [grayWidth])
    (by norm_num)

/-! ### Canvas compositor (src/stitching/blending.py, claim C9) -/

/-- A three-channel (BGR) pixel. -/
abbrev Pix3 := ℚ × ℚ × ℚ

/-- A three-channel image: height, width and a total pixel function. -/
structure Image3 where
  h : ℕ
  w : ℕ
  pix : ℕ → ℕ → Pix3

/-- `np.round`: round half to even (banker's rounding). -/
def npRound (q : ℚ) : ℤ :=
  if q - ((ratFloor q : ℤ) : ℚ) < 1 / 2 then ratFloor q
  else if (1 / 2 : ℚ) < q - ((ratFloor q : ℤ) : ℚ) then ratFloor q + 1
  else if ratFloor q % 2 = 0 then ratFloor q else ratFloor q + 1

/-- Smaller x corner `min(tx, tx + w)` of a placed image. -/
def minCornerX (it : Image3 × ℚ × ℚ) : ℚ := min it.2.1 (it.2.1 + (it.1.w : ℚ))

/-- Larger x corner `max(tx, tx + w)` of a placed image. -/
def maxCornerX (it : Image3 × ℚ × ℚ) : ℚ := max it.2.1 (it.2.1 + (it.1.w : ℚ))

/-- Smaller y corner `min(ty, ty + h)` of a placed image. -/
def minCornerY (it : Image3 × ℚ × ℚ) : ℚ := min it.2.2 (it.2.2 + (it.1.h : ℚ))

/-- Larger y corner `max(ty, ty + h)` of a placed image. -/
def maxCornerY (it : Image3 × ℚ × ℚ) : ℚ := max it.2.2 (it.2.2 + (it.1.h : ℚ))

/-- Loop body of `compute_canvas_bounds`: update the four running bounds
with both corners of one placed image. -/
def boundsStep (acc : Option (ℚ × ℚ × ℚ × ℚ)) (it : Image3 × ℚ × ℚ) :
    Option (ℚ × ℚ × ℚ × ℚ) :=
  match acc with
  | none => some (minCornerX it, maxCornerX it, minCornerY it, maxCornerY it)
  | some (mnx, mxx, mny, mxy) =>
    some (min mnx (minCornerX it), max mxx (maxCornerX it),
      min mny (minCornerY it), max mxy (maxCornerY it))

/-- `compute_canvas_bounds` from src/stitching/blending.py: running
`min_x, max_x, min_y, max_y` over both corners of every placed image.  The
Python code starts from `±inf`; the start state is modelled as `none`, so
the result is `none` exactly when `zip(images, translations)` is empty
(in which case the Python caller would crash converting `inf` to `int`). -/
def compute_canvas_bounds (images : List Image3)
    (translations : List (ℚ × ℚ)) : Option (ℚ × ℚ × ℚ × ℚ) :=
  (images.zip translations).foldl boundsStep none

/-- The bounds-check-and-clip block of `blend_average` for one image:
returns `(x_offset, y_offset, w, h)` after the four `if` adjustments. -/
def clipRect (canvas_w canvas_h : ℤ) (min_x min_y : ℚ) (img : Image3)
    (tr : ℚ × ℚ) : ℤ × ℤ × ℤ × ℤ :=
  let x0 := npRound (tr.1 - min_x)
  let y0 := npRound (tr.2 - min_y)
  let w1 := if canvas_w < x0 + (img.w : ℤ) then canvas_w - x0 else (img.w : ℤ)
  let h1 := if canvas_h < y0 + (img.h : ℤ) then canvas_h - y0 else (img.h : ℤ)
  let w2 := if x0 < 0 then w1 + x0 else w1
  let x1 := if x0 < 0 then 0 else x0
  let h2 := if y0 < 0 then h1 + y0 else h1
  let y1 := if y0 < 0 then 0 else y0
  (x1, y1, w2, h2)

/-- Mask test `np.any(img_crop > 0, axis=2)`: some channel is positive. -/
def anyPos (p : Pix3) : Bool :=
  decide (0 < p.1 ∨ 0 < p.2.1 ∨ 0 < p.2.2)

/-- Contribution of one placed image to canvas pixel `(X, Y)`: `none` when
the image's clipped region is empty (`w <= 0 or h <= 0`, the "out of canvas
bounds, skipping" branch), when the pixel lies outside the clipped region,
or when the source pixel is masked out; otherwise the source pixel. -/
def contribAt (img : Image3) (rect : ℤ × ℤ × ℤ × ℤ) (X Y : ℕ) :
    Option Pix3 :=
  match rect with
  | (x1, y1, w2, h2) =>
    if w2 ≤ 0 ∨ h2 ≤ 0 then none
    else if x1 ≤ (X : ℤ) ∧ (X : ℤ) < x1 + w2 ∧ y1 ≤ (Y : ℤ) ∧
        (Y : ℤ) < y1 + h2 then
      let p := img.pix ((Y : ℤ) - y1).toNat ((X : ℤ) - x1).toNat
      if anyPos p then some p else none
    else none

/-- Componentwise pixel sum (the float accumulator). -/
def addPix (a b : Pix3) : Pix3 := (a.1 + b.1, a.2.1 + b.2.1, a.2.2 + b.2.2)

/-- `astype(np.uint8)` on a non-negative float: truncate and wrap. -/
def toUint8 (q : ℚ) : ℚ := (((ratFloor q).toNat % 256 : ℕ) : ℚ)

/-- `blend_average` from src/stitching/blending.py.  An empty image list
raises `ValueError`; an empty `zip` leaves the `±inf` bounds in place and
the Python `int(np.ceil(...))` conversion raises `OverflowError`.  Otherwise
every canvas pixel is `accumulator / weight` over the unmasked contributions
(then cast to `uint8`), and `0` where the weight is zero; an image whose
clipped region is empty contributes nothing (it is skipped with a logged
warning, not an error). -/
def blend_average (images : List Image3) (translations : List (ℚ × ℚ)) :
    Except String Image3 :=
  if images.length = 0 then Except.error "No images to blend"
  else
    match compute_canvas_bounds images translations with
    | none => Except.error "OverflowError"
    | some (min_x, max_x, min_y, max_y) =>
      let canvas_width := ratCeil (max_x - min_x)
      let canvas_height := ratCeil (max_y - min_y)
      Except.ok
        { h := canvas_height.toNat
          w := canvas_width.toNat
          pix := fun Y X =>
            let cs := (images.zip translations).filterMap fun it =>
              contribAt it.1
                (clipRect canvas_width canvas_height min_x min_y it.1 it.2)
                X Y
            if 0 < cs.length then
              let s := cs.foldl addPix (0, 0, 0)
              (toUint8 (s.1 / (cs.length : ℚ)),
               toUint8 (s.2.1 / (cs.length : ℚ)),
               toUint8 (s.2.2 / (cs.length : ℚ)))
            else (0, 0, 0) }

theorem boundsFold_eq (l : List (Image3 × ℚ × ℚ)) (a : ℚ × ℚ × ℚ × ℚ) :
    l.foldl boundsStep (some a) =
      some ((l.map minCornerX).foldl min a.1,
        (l.map maxCornerX).foldl max a.2.1,
        (l.map minCornerY).foldl min a.2.2.1,
        (l.map maxCornerY).foldl max a.2.2.2) := by
  induction l generalizing a with
  | nil => rfl
  | cons it rest ih =>
    obtain ⟨a1, a2, a3, a4⟩ := a
    rw [List.foldl_cons]
    show rest.foldl boundsStep
      (some (min a1 (minCornerX it), max a2 (maxCornerX it),
        min a3 (minCornerY it), max a4 (maxCornerY it))) = _
    rw [ih]
    simp [List.foldl_cons]

theorem canvas_bounds_eq (images : List Image3)
    (translations : List (ℚ × ℚ)) (it0 : Image3 × ℚ × ℚ)
    (rest : List (Image3 × ℚ × ℚ))
    (hzip : images.zip translations = it0 :: rest) :
    compute_canvas_bounds images translations =
      some ((rest.map minCornerX).foldl min (minCornerX it0),
        (rest.map maxCornerX).foldl max (maxCornerX it0),
        (rest.map minCornerY).foldl min (minCornerY it0),
        (rest.map maxCornerY).foldl max (maxCornerY it0)) := by
  unfold compute_canvas_bounds
  rw [hzip, List.foldl_cons]
  show rest.foldl boundsStep
    (some (minCornerX it0, maxCornerX it0, minCornerY it0, maxCornerY it0)) = _
  rw [boundsFold_eq]

theorem foldl_min_le_init (l : List ℚ) (a : ℚ) : l.foldl min a ≤ a := by
  induction l generalizing a with
  | nil => exact le_refl a
  | cons x rest ih =>
    rw [List.foldl_cons]
    exact le_trans (ih (min a x)) (min_le_left a x)

theorem foldl_min_le_mem (l : List ℚ) (a x : ℚ) (hx : x ∈ l) :
    l.foldl min a ≤ x := by
  induction l generalizing a with
  | nil => simp at hx
  | cons y rest ih =>
    rw [List.foldl_cons]
    rcases List.mem_cons.mp hx with rfl | hmem
    · exact le_trans (foldl_min_le_init rest (min a x)) (min_le_right a x)
    · exact ih (min a y) hmem

theorem foldl_min_attain (l : List ℚ) (a : ℚ) :
    l.foldl min a = a ∨ l.foldl min a ∈ l := by
  induction l generalizing a with
  | nil => exact Or.inl rfl
  | cons x rest ih =>
    rw [List.foldl_cons]
    rcases ih (min a x) with h | h
    · rw [h]
      rcases min_cases a x with ⟨h', _⟩ | ⟨h', _⟩
      · exact Or.inl h'
      · exact Or.inr (by rw [h']; exact List.mem_cons_self x rest)
    · exact Or.inr (List.mem_cons_of_mem x h)

theorem foldl_max_le_init (l : List ℚ) (a : ℚ) : a ≤ l.foldl max a := by
  induction l generalizing a with
  | nil => exact le_refl a
  | cons x rest ih =>
    rw [List.foldl_cons]
    exact le_trans (le_max_left a x) (ih (max a x))

theorem foldl_max_le_mem (l : List ℚ) (a x : ℚ) (hx : x ∈ l) :
    x ≤ l.foldl max a := by
  induction l generalizing a with
  | nil => simp at hx
  | cons y rest ih =>
    rw [List.foldl_cons]
    rcases List.mem_cons.mp hx with rfl | hmem
    · exact le_trans (le_max_right a x) (foldl_max_le_init rest (max a x))
    · exact ih (max a y) hmem

theorem foldl_max_attain (l : List ℚ) (a : ℚ) :
    l.foldl max a = a ∨ l.foldl max a ∈ l := by
  induction l generalizing a with
  | nil => exact Or.inl rfl
  | cons x rest ih =>
    rw [List.foldl_cons]
    rcases ih (max a x) with h | h
    · rw [h]
      rcases max_cases a x with ⟨h', _⟩ | ⟨h', _⟩
      · exact Or.inl h'
      · exact Or.inr (by rw [h']; exact List.mem_cons_self x rest)
    · exact Or.inr (List.mem_cons_of_mem x h)

/-- C9 (amended): the canvas is sized to the tight bounding box of every
placed image's corners — each bound encloses every corner and is attained by
some image — and the output dimensions are the ceiling of the bounding-box
extent; but an image whose clipped placement region on the canvas is empty
is skipped with a logged warning rather than raising an error: for a
non-empty image list (with index-aligned translations) blending always
returns a result. -/
theorem C9_compositor_bounds_amended (images : List Image3)
    (translations : List (ℚ × ℚ)) :
    (images ≠ [] → translations.length = images.length →
      (blend_average images translations).isOk = true) ∧
    (∀ mnx mxx mny mxy,
      compute_canvas_bounds images translations = some (mnx, mxx, mny, mxy) →
      (∀ it ∈ images.zip translations,
        mnx ≤ minCornerX it ∧ maxCornerX it ≤ mxx ∧
        mny ≤ minCornerY it ∧ maxCornerY it ≤ mxy) ∧
      (∃ it ∈ images.zip translations, mnx = minCornerX it) ∧
      (∃ it ∈ images.zip translations, mxx = maxCornerX it) ∧
      (∃ it ∈ images.zip translations, mny = minCornerY it) ∧
      (∃ it ∈ images.zip translations, mxy = maxCornerY it) ∧
      (∀ out, blend_average images translations = Except.ok out →
        out.w = (ratCeil (mxx - mnx)).toNat ∧
        out.h = (ratCeil (mxy - mny)).toNat)) := by
  constructor
  · intro hne hlen
    obtain ⟨it0, rest, hzip⟩ : ∃ it0 rest,
        images.zip translations = it0 :: rest := by
      cases hz : images.zip translations with
      | nil =>
        exfalso
        have hlz : (images.zip translations).length = 0 := by rw [hz]; rfl
        rw [List.length_zip, hlen] at hlz
        have : images.length ≠ 0 := by
          intro h0
          exact hne (List.length_eq_zero.mp h0)
        omega
      | cons a l => exact ⟨a, l, rfl⟩
    have hb := canvas_bounds_eq images translations it0 rest hzip
    unfold blend_average
    rw [if_neg (by intro h0; exact hne (List.length_eq_zero.mp h0)), hb]
    rfl
  · intro mnx mxx mny mxy hbnd
    obtain ⟨it0, rest, hzip⟩ : ∃ it0 rest,
        images.zip translations = it0 :: rest := by
      cases hz : images.zip translations with
      | nil =>
        exfalso
        rw [compute_canvas_bounds, hz] at hbnd
        simp at hbnd
      | cons a l => exact ⟨a, l, rfl⟩
    have hb := canvas_bounds_eq images translations it0 rest hzip
    have hbcopy := hbnd
    rw [hb] at hbnd
    have e1 : mnx = (rest.map minCornerX).foldl min (minCornerX it0) := by
      have := Option.some.inj hbnd
      exact (congrArg Prod.fst this).symm
    have e2 : mxx = (rest.map maxCornerX).foldl max (maxCornerX it0) := by
      have := Option.some.inj hbnd
      exact (congrArg (fun p => p.2.1) this).symm
    have e3 : mny = (rest.map minCornerY).foldl min (minCornerY it0) := by
      have := Option.some.inj hbnd
      exact (congrArg (fun p => p.2.2.1) this).symm
    have e4 : mxy = (rest.map maxCornerY).foldl max (maxCornerY it0) := by
      have := Option.some.inj hbnd
      exact (congrArg (fun p => p.2.2.2) this).symm
    refine ⟨?_, ?_, ?_, ?_, ?_, ?_⟩
    · intro it hit
      rw [hzip] at hit
      rcases List.mem_cons.mp hit with rfl | hmem
      · exact ⟨e1 ▸ foldl_min_le_init _ _, e2 ▸ foldl_max_le_init _ _,
          e3 ▸ foldl_min_le_init _ _, e4 ▸ foldl_max_le_init _ _⟩
      · exact ⟨e1 ▸ foldl_min_le_mem _ _ _ (List.mem_map_of_mem _ hmem),
          e2 ▸ foldl_max_le_mem _ _ _ (List.mem_map_of_mem _ hmem),
          e3 ▸ foldl_min_le_mem _ _ _ (List.mem_map_of_mem _ hmem),
          e4 ▸ foldl_max_le_mem _ _ _ (List.mem_map_of_mem _ hmem)⟩
    · rcases foldl_min_attain (rest.map minCornerX) (minCornerX it0) with h | h
      · exact ⟨it0, by rw [hzip]; exact List.mem_cons_self _ _, by rw [e1, h]⟩
      · obtain ⟨it, hit, hval⟩ := List.mem_map.mp h
        exact ⟨it, by rw [hzip]; exact List.mem_cons_of_mem _ hit,
          by rw [e1, ← hval]⟩
    · rcases foldl_max_attain (rest.map maxCornerX) (maxCornerX it0) with h | h
      · exact ⟨it0, by rw [hzip]; exact List.mem_cons_self _ _, by rw [e2, h]⟩
      · obtain ⟨it, hit, hval⟩ := List.mem_map.mp h
        exact ⟨it, by rw [hzip]; exact List.mem_cons_of_mem _ hit,
          by rw [e2, ← hval]⟩
    · rcases foldl_min_attain (rest.map minCornerY) (minCornerY it0) with h | h
      · exact ⟨it0, by rw [hzip]; exact List.mem_cons_self _ _, by rw [e3, h]⟩
      · obtain ⟨it, hit, hval⟩ := List.mem_map.mp h
        exact ⟨it, by rw [hzip]; exact List.mem_cons_of_mem _ hit,
          by rw [e3, ← hval]⟩
    · rcases foldl_max_attain (rest.map maxCornerY) (maxCornerY it0) with h | h
      · exact ⟨it0, by rw [hzip]; exact List.mem_cons_self _ _, by rw [e4, h]⟩
      · obtain ⟨it, hit, hval⟩ := List.mem_map.mp h
        exact ⟨it, by rw [hzip]; exact List.mem_cons_of_mem _ hit,
          by rw [e4, ← hval]⟩
    · intro out hout
      have himg : images.length ≠ 0 := by
        intro h0
        have : images = [] := List.length_eq_zero.mp h0
        rw [this] at hzip
        simp at hzip
      unfold blend_average at hout
      rw [if_neg himg, hbcopy] at hout
      have := Except.ok.inj hout
      rw [← this]
      exact ⟨rfl, rfl⟩

/-- Concrete 1×1 bright image used for the compositor evaluation. -/
def imgA : Image3 := ⟨1, 1, fun _ _ => (5, 5, 5)⟩

/-- Concrete zero-width (empty-placement) image used for the compositor
evaluation. -/
def imgB : Image3 := ⟨1, 0, fun _ _ => (0, 0, 0)⟩

/-- Counterexample to C9 as stated: with `imgB` placed at `x = 5` its
clipped placement region on the canvas is empty (`w = 0`, the
"out of canvas bounds, skipping" branch), yet `blend_average` returns a
result — no error is raised. -/
theorem C9_compositor_skip_counterexample :
    compute_canvas_bounds [imgA, imgB] [(0, 0), (5, 0)] =
      some (0, 5, 0, 1) ∧
    clipRect (ratCeil ((5 : ℚ) - 0)) (ratCeil ((1 : ℚ) - 0)) 0 0 imgB
      (5, 0) = (5, 0, 0, 1) ∧
    (blend_average [imgA, imgB] [(0, 0), (5, 0)]).isOk = true := by
  have hceilw : ratCeil ((5 : ℚ) - 0) = 5 := by
    rw [ratCeil_eq]
    norm_num
  have hceilh : ratCeil ((1 : ℚ) - 0) = 1 := by
    rw [ratCeil_eq]
    norm_num
  have hbounds : compute_canvas_bounds [imgA, imgB] [(0, 0), (5, 0)] =
      some (0, 5, 0, 1) := by
    unfold compute_canvas_bounds boundsStep
    norm_num [minCornerX, maxCornerX, minCornerY, maxCornerY, imgA, imgB,
      min_def, max_def]
  have hround : npRound ((5 : ℚ) - 0) = 5 := by
    unfold npRound
    rw [ratFloor_eq]
    norm_num
  have hclip : clipRect 5 1 0 0 imgB (5, 0) = (5, 0, 0, 1) := by
    unfold clipRect
    have hy : npRound ((0 : ℚ) - 0) = 0 := by
      unfold npRound
      rw [ratFloor_eq]
      norm_num
    rw [show ((5, 0) : ℚ × ℚ).1 - (0 : ℚ) = 5 - 0 from rfl]
    rw [show ((5, 0) : ℚ × ℚ).2 - (0 : ℚ) = 0 - 0 from rfl]
    rw [hround, hy]
    norm_num [imgB]
  refine ⟨hbounds, by rw [hceilw, hceilh]; exact hclip, ?_⟩
  unfold blend_average
  rw [if_neg (by norm_num), hbounds]
  rfl

/-- Witness for the amended C9 on a single 1×1 image placed at the origin. -/
theorem C9_compositor_bounds_amended_witness :
    (blend_average [imgA] [(0, 0)]).isOk = true :=
  (C9_compositor_bounds_amended [imgA] [(0, 0)]).1 (by simp) rfl

/-! ### Pipeline drift-correction step (src/pipeline.py, claim C5) -/

/-- State of `PanoramaStitcher` relevant to drift correction: the warped
images produced in step 2, the pairwise translation records of step 4, and
the current focal length. -/
structure PipeState where
  warped_images : List QImage
  translations : List TransRecord
  focal_length : ℚ

/-- Step 2 (`_warp_images`): warp every loaded image with the current focal
length (`center=None`, so the image centre is used). -/
def warp_images_step (cosQ tanQ : ℚ → ℚ) (images : List QImage) (f : ℚ) :
    List QImage :=
  images.map fun img => warp_cylindrical cosQ tanQ img f none

/-- Step 6 (`_apply_drift_correction`): skip when the first/last pair has
fewer than 4 matches; otherwise run the gate and, when it passes, call
`correct_drift` and store the corrected focal length (the
`"corrected_focal_length" in correction` check in the source is always
true).  Nothing else in the state changes — in particular the warped
images are left untouched. -/
def apply_drift_correction_step (piQ : ℚ) (s : PipeState) (num_matches : ℕ)
    (first_last : RansacResult) (image_width : ℕ) : PipeState :=
  if num_matches < 4 then s
  else if should_apply_drift_correction first_last (3 / 10) then
    { s with focal_length :=
        (correct_drift piQ s.translations first_last s.focal_length
          image_width).corrected_focal_length }
  else s

/-- Step 7 (`_blend_images`): the compositor consumes the state's warped
images together with the accumulated placements. -/
def blend_images_step (s : PipeState) : List QImage × List (ℚ × ℚ) :=
  (s.warped_images,
   compute_cumulative_translations (s.translations.map fun t => t.translation))

/-- Concrete single-image run for evaluating the drift-correction step. -/
def c5Images : List QImage := [⟨2, 2, fun _ _ => 3⟩]

/-- Concrete first/last estimate that passes the drift gate
(20 inliers, ratio 1/2, vertical gap 100). -/
def c5FirstLast : RansacResult := ⟨(0, 100), [], 20, 1 / 2⟩

/-- Pipeline state after warping with the original focal length 500. -/
def c5State0 : PipeState :=
  ⟨warp_images_step (fun _ => 1) (fun _ => 0) c5Images 500, [], 500⟩

/-- Pipeline state after the drift-correction step. -/
def c5State1 : PipeState :=
  apply_drift_correction_step 3 c5State0 10 c5FirstLast 2

/-- C5 is violated by the code: the drift-correction step never touches the
warped images, so even on a run where the gate passes and the focal length
is corrected (here `500 → 1450/3`), the compositor consumes the projections
computed with the original focal length — no re-projection happens. -/
theorem C5_no_rewarp_after_drift_correction :
    (∀ (piQ : ℚ) (s : PipeState) (nm : ℕ) (fl : RansacResult) (w : ℕ),
      (apply_drift_correction_step piQ s nm fl w).warped_images =
        s.warped_images) ∧
    should_apply_drift_correction c5FirstLast (3 / 10) = true ∧
    c5State1.focal_length = 1450 / 3 ∧
    ¬c5State1.focal_length = c5State0.focal_length ∧
    (blend_images_step c5State1).1 =
      warp_images_step (fun _ => 1) (fun _ => 0) c5Images 500 := by
  have hinv : ∀ (piQ : ℚ) (s : PipeState) (nm : ℕ) (fl : RansacResult)
      (w : ℕ),
      (apply_drift_correction_step piQ s nm fl w).warped_images =
        s.warped_images := by
    intro piQ s nm fl w
    unfold apply_drift_correction_step
    split_ifs <;> rfl
  have hgate : should_apply_drift_correction c5FirstLast (3 / 10) = true := by
    unfold should_apply_drift_correction c5FirstLast
    norm_num
  have hfocal : c5State1.focal_length = 1450 / 3 := by
    show (apply_drift_correction_step 3 c5State0 10 c5FirstLast
      2).focal_length = 1450 / 3
    unfold apply_drift_correction_step
    rw [if_neg (by norm_num), if_pos hgate]
    show (correct_drift 3 c5State0.translations c5FirstLast
      c5State0.focal_length 2).corrected_focal_length = 1450 / 3
    unfold correct_drift c5State0 c5FirstLast
    norm_num
  refine ⟨hinv, hgate, hfocal, ?_, ?_⟩
  · rw [hfocal]
    show ¬(1450 / 3 : ℚ) = 500
    norm_num
  · show c5State1.warped_images = _
    show (apply_drift_correction_step 3 c5State0 10 c5FirstLast
      2).warped_images = _
    rw [hinv]
    rfl
